import Mathlib

/-!
Shallow embedding of the task-api sharded in-memory storage engine
(`internal/storage` sharded `MemoryStorage` and `internal/models` task model).

Modelling conventions:
* Go `time.Time` values are modelled as `Nat` clock readings; `time.Now()`
  becomes an explicit `now : Nat` argument to the operations that read the
  clock.  The zero value of `time.Time` corresponds to `0`.
* Go maps (`map[string]*models.Task`) are modelled as association lists with
  Go map semantics: assignment replaces the binding for an existing key,
  lookup returns the unique binding, delete removes it.
* `uuid.New().String()` is random; the generated id is passed in as an
  explicit `taskID : String` argument (an oracle for the generator).
* Go methods that mutate the receiver and return `(value, error)` become
  functions `state → ... → result × state`; the error paths of the source
  return before any mutation, so they return the input state unchanged.
* `uint32` arithmetic is `Nat` arithmetic reduced `% 2^32`; `int`/`int64`
  fields (`maxTasks`, `taskCount`) are `Int`.
-/

deriving instance DecidableEq for Except

namespace TaskApi

/-- Go `type TaskStatus int` (`internal/models/task.go`). -/
abbrev TaskStatus := Int

/-- `TaskIncomplete TaskStatus = 0`. -/
def TaskStatus.TaskIncomplete : TaskStatus := 0

/-- `TaskCompleted TaskStatus = 1`. -/
def TaskStatus.TaskCompleted : TaskStatus := 1

/-- `func (ts TaskStatus) IsValid() bool { return ts == TaskIncomplete || ts == TaskCompleted }` -/
def TaskStatus.IsValid (ts : TaskStatus) : Bool :=
  ts == TaskStatus.TaskIncomplete || ts == TaskStatus.TaskCompleted

/-- The task entity (`models.Task`); timestamps are `Nat` clock readings. -/
structure Task where
  ID : String
  Name : String
  Status : TaskStatus
  CreatedAt : Nat
  UpdatedAt : Nat
deriving DecidableEq, Repr

/-- `models.CreateTaskRequest`. -/
structure CreateTaskRequest where
  Name : String
  Status : TaskStatus
deriving DecidableEq, Repr

/-- `func (req *CreateTaskRequest) Validate() error`; `none` models a nil
error.  Go `len(req.Name)` is the byte length of the UTF-8 encoding, i.e.
`String.utf8ByteSize`. -/
def CreateTaskRequest.Validate (req : CreateTaskRequest) : Option String :=
  if req.Name = "" then some "task name cannot be empty"
  else if 255 < req.Name.utf8ByteSize then some "task name cannot exceed 255 characters"
  else if TaskStatus.IsValid req.Status then none
  else some ("invalid task status: " ++ toString req.Status)

/-- `models.UpdateTaskRequest` with optional (`*string` / `*TaskStatus`) fields. -/
structure UpdateTaskRequest where
  Name : Option String
  Status : Option TaskStatus
deriving DecidableEq, Repr

/-- Status-field part of `func (req *UpdateTaskRequest) Validate() error`. -/
def statusFieldCheck : Option TaskStatus → Option String
  | some s => if TaskStatus.IsValid s then none else some ("invalid task status: " ++ toString s)
  | none => none

/-- `func (req *UpdateTaskRequest) Validate() error`: the name field (when
supplied) is checked first, then the status field (when supplied). -/
def UpdateTaskRequest.Validate (req : UpdateTaskRequest) : Option String :=
  match req.Name with
  | some n =>
    if n = "" then some "task name cannot be empty"
    else if 255 < n.utf8ByteSize then some "task name cannot exceed 255 characters"
    else statusFieldCheck req.Status
  | none => statusFieldCheck req.Status

/-- `func (req *UpdateTaskRequest) HasUpdates() bool`. -/
def UpdateTaskRequest.HasUpdates (req : UpdateTaskRequest) : Bool :=
  req.Name.isSome || req.Status.isSome

/-- `func (req *UpdateTaskRequest) ApplyTo(task *Task)`: each supplied field is
written and stamps `UpdatedAt` with the same `now := time.Now()` reading. -/
def UpdateTaskRequest.ApplyTo (req : UpdateTaskRequest) (now : Nat) (task : Task) : Task :=
  let task :=
    match req.Name with
    | some n => { task with Name := n, UpdatedAt := now }
    | none => task
  match req.Status with
  | some s => { task with Status := s, UpdatedAt := now }
  | none => task

/-- `func NewTask(name string, status TaskStatus) *Task`: both timestamps get
the same `time.Now()` reading; `ID` is left at its zero value. -/
def NewTask (name : String) (status : TaskStatus) (now : Nat) : Task :=
  { ID := "", Name := name, Status := status, CreatedAt := now, UpdatedAt := now }

/-- Error kinds of the storage layer (spec section 7 taxonomy; the source
returns `fmt.Errorf` values with these shapes). -/
inductive StorageError where
  | validationError (msg : String)
  | capacityExceeded (max : Int)
  | notFound (id : String)
  | noOpUpdate
deriving DecidableEq, Repr

/-- A shard's task map, as an association list with Go map semantics. -/
abbrev Shard := List (String × Task)

/-- The sharded `storage.MemoryStorage`.  Locks and the `sync.Pool` have no
sequential content and are omitted; `shardCount` mirrors the `uint32` field. -/
structure MemoryStorage where
  shards : List Shard
  shardCount : Nat
  maxTasks : Int
  taskCount : Int
deriving DecidableEq, Repr

/-- `func NewMemoryStorage(maxTasks int) *MemoryStorage`.  The source sets
`shardCount := 32`, overriding with `8` when `maxTasks < 1000` and `64` when
`maxTasks > 100000` (after the `maxTasks <= 0 → 10000` defaulting); the
"safe conversion" to `uint32` is the identity for 8/32/64. -/
def NewMemoryStorage (maxTasks : Int) : MemoryStorage :=
  let m := if maxTasks ≤ 0 then 10000 else maxTasks
  let sc : Nat := if m < 1000 then 8 else if 100000 < m then 64 else 32
  { shards := List.replicate sc ([] : Shard)
    shardCount := sc
    maxTasks := m
    taskCount := 0 }

/-- The bytes of the UTF-8 encoding of a string (`String.toUTF8` data;
Go indexes `key[i]` over exactly these bytes). -/
def stringBytes (s : String) : List UInt8 :=
  s.data.flatMap String.utf8EncodeChar

/-- `func (ms *MemoryStorage) fnv32Hash(key string) uint32`: FNV-1a over the
bytes of `key`; `uint32` overflow is the `% 2^32` reduction (xor of values
below `2^32` needs no reduction). -/
def fnv32Hash (key : String) : Nat :=
  (stringBytes key).foldl (fun hash b => ((hash ^^^ b.toNat) * 16777619) % 4294967296) 2166136261

/-- Index computed by `func (ms *MemoryStorage) getShard(key string)`:
`hash % ms.shardCount`. -/
def getShardIndex (ms : MemoryStorage) (key : String) : Nat :=
  fnv32Hash key % ms.shardCount

/-- The shard returned by `getShard` (the slot of `ms.shards` at the
computed index). -/
def getShard (ms : MemoryStorage) (key : String) : Shard :=
  ms.shards.getD (getShardIndex ms key) []

/-- Go map lookup `shard.tasks[id]`. -/
def shardFind (sh : Shard) (id : String) : Option Task :=
  match sh with
  | [] => none
  | (k, v) :: rest => if k = id then some v else shardFind rest id

/-- Go map assignment `shard.tasks[id] = t`: replace an existing binding,
otherwise add one. -/
def shardInsert (sh : Shard) (id : String) (t : Task) : Shard :=
  match sh with
  | [] => [(id, t)]
  | (k, v) :: rest => if k = id then (id, t) :: rest else (k, v) :: shardInsert rest id t

/-- Go map deletion `delete(shard.tasks, id)`. -/
def shardErase (sh : Shard) (id : String) : Shard :=
  match sh with
  | [] => []
  | (k, v) :: rest => if k = id then rest else (k, v) :: shardErase rest id

/-- `func (ms *MemoryStorage) Create(req) (*Task, error)`: validate, check the
counter against the ceiling, build the task via `NewTask` with a fresh id,
insert into the shard selected by the id, increment the counter.  Error paths
return before mutating, so they carry the unchanged state. -/
def Create (ms : MemoryStorage) (req : CreateTaskRequest) (now : Nat) (taskID : String) :
    Except StorageError Task × MemoryStorage :=
  match CreateTaskRequest.Validate req with
  | some msg => (Except.error (StorageError.validationError msg), ms)
  | none =>
    if ms.maxTasks ≤ ms.taskCount then
      (Except.error (StorageError.capacityExceeded ms.maxTasks), ms)
    else
      let task := { NewTask req.Name req.Status now with ID := taskID }
      let idx := getShardIndex ms taskID
      (Except.ok task,
        { ms with
          shards := ms.shards.set idx (shardInsert (getShard ms taskID) taskID task)
          taskCount := ms.taskCount + 1 })

/-- `func (ms *MemoryStorage) GetByID(id string) (*Task, error)`. -/
def GetByID (ms : MemoryStorage) (id : String) : Except StorageError Task :=
  match shardFind (getShard ms id) id with
  | none => Except.error (StorageError.notFound id)
  | some task => Except.ok task

/-- `func (ms *MemoryStorage) Update(id, req) (*Task, error)`: validate, then
reject no-op updates, then look up; applies the supplied fields to a copy and
stores it back under the same key (the counter is untouched). -/
def Update (ms : MemoryStorage) (id : String) (req : UpdateTaskRequest) (now : Nat) :
    Except StorageError Task × MemoryStorage :=
  match UpdateTaskRequest.Validate req with
  | some msg => (Except.error (StorageError.validationError msg), ms)
  | none =>
    if !(UpdateTaskRequest.HasUpdates req) then
      (Except.error StorageError.noOpUpdate, ms)
    else
      match shardFind (getShard ms id) id with
      | none => (Except.error (StorageError.notFound id), ms)
      | some task =>
        let updatedTask := UpdateTaskRequest.ApplyTo req now task
        (Except.ok updatedTask,
          { ms with
            shards := ms.shards.set (getShardIndex ms id)
              (shardInsert (getShard ms id) id updatedTask) })

/-- `func (ms *MemoryStorage) Delete(id string) error`: look up, remove,
decrement the counter; `none` models a nil error. -/
def Delete (ms : MemoryStorage) (id : String) : Option StorageError × MemoryStorage :=
  match shardFind (getShard ms id) id with
  | none => (some (StorageError.notFound id), ms)
  | some _ =>
    (none,
      { ms with
        shards := ms.shards.set (getShardIndex ms id) (shardErase (getShard ms id) id)
        taskCount := ms.taskCount - 1 })

/-- `func (ms *MemoryStorage) Count() (int, error)`: the atomic counter. -/
def Count (ms : MemoryStorage) : Int :=
  ms.taskCount

/-- `func (ms *MemoryStorage) Clear() error`: every shard's map is replaced by
a fresh empty one and the counter is reset. -/
def Clear (ms : MemoryStorage) : MemoryStorage :=
  { ms with
    shards := ms.shards.map (fun _ => ([] : Shard))
    taskCount := 0 }

/-- `func (ms *MemoryStorage) HealthCheck() error`: fails when `len(ms.shards)
== 0`.  The per-shard nil-pointer/nil-map checks of the source cannot fail in
the model, where every list is initialized. -/
def HealthCheck (ms : MemoryStorage) : Option String :=
  if ms.shards.length = 0 then some "memory storage shards are not properly initialized"
  else none

/-- `func (ms *MemoryStorage) GetAll() ([]*Task, error)`: concatenate the
records of every shard (copies are identities in the value model). -/
def GetAll (ms : MemoryStorage) : List Task :=
  (ms.shards.map (fun sh => sh.map Prod.snd)).flatten

/-- `func (ms *MemoryStorage) GetTasksByStatus(status)`: records of every
shard whose status equals the argument. -/
def GetTasksByStatus (ms : MemoryStorage) (status : TaskStatus) : List Task :=
  (ms.shards.map (fun sh => (sh.map Prod.snd).filter (fun t => t.Status == status))).flatten

/-- `func (ms *MemoryStorage) GetTasksPaginated(offset, limit int)`:
materialize all records (the same per-shard iteration as `GetAll`), report
`total`, return the empty page when `offset >= total`, otherwise the slice
`allTasks[offset:end]` with `end = min(offset+limit, total)`.  The claims under
verification restrict to `offset ≥ 0` and `limit > 0`, where the `Int.toNat`
conversions below are exact (Go panics on a negative slice bound). -/
def GetTasksPaginated (ms : MemoryStorage) (offset limit : Int) : List Task × Int :=
  let allTasks := GetAll ms
  let total : Int := allTasks.length
  if total ≤ offset then ([], total)
  else
    let e := offset + limit
    let e' := if total < e then total else e
    ((allTasks.drop offset.toNat).take (e' - offset).toNat, total)

/-- Well-formedness of the store representation: the shard slice has exactly
`shardCount` entries and there is at least one shard (true of every store the
constructor returns; Go would panic on `hash % 0`). -/
def WF (ms : MemoryStorage) : Prop :=
  ms.shards.length = ms.shardCount ∧ 0 < ms.shardCount

instance : DecidablePred WF := fun ms => by
  unfold WF; infer_instance

/-- One FNV-1a step as the spec words it: xor the byte into the hash, then
multiply by the FNV prime 16777619, in 32-bit arithmetic. -/
def fnvSpecStep (h b : Nat) : Nat :=
  ((h ^^^ b) * 16777619) % 4294967296

/-- Accumulator form of the spec-level FNV-1a: apply `fnvSpecStep` for each
byte in order, starting from the accumulator. -/
def fnvSpecAux (h : Nat) : List Nat → Nat
  | [] => h
  | b :: bs => fnvSpecAux (fnvSpecStep h b) bs

/-- FNV-1a 32-bit over a byte sequence as the spec words it: start from the
offset basis 2166136261 and apply `fnvSpecStep` for each byte in order.
This definition follows the claim's words and is compared against the
source-derived `fnv32Hash`. -/
def fnvSpec (bytes : List Nat) : Nat :=
  fnvSpecAux 2166136261 bytes

/-- A sequence of sequential `Create` calls, each given its request, clock
reading and generated id; stops at the first error. -/
def createSeq (ms : MemoryStorage) :
    List (CreateTaskRequest × Nat × String) → Except StorageError MemoryStorage
  | [] => Except.ok ms
  | (req, now, taskID) :: rest =>
    match Create ms req now taskID with
    | (Except.ok _, ms') => createSeq ms' rest
    | (Except.error e, _) => Except.error e

/-- A store operation, for reachability statements.  Creates and updates carry
their `time.Now()` reading and (for creates) the generated id. -/
inductive Op where
  | create (req : CreateTaskRequest) (now : Nat) (taskID : String)
  | update (id : String) (req : UpdateTaskRequest) (now : Nat)
  | delete (id : String)
  | clear
deriving Repr

/-- Apply one operation to the store; a failed operation leaves the state the
operation returned (its error paths hand back the input state). -/
def applyOp (ms : MemoryStorage) : Op → MemoryStorage
  | Op.create req now taskID => (Create ms req now taskID).2
  | Op.update id req now => (Update ms id req now).2
  | Op.delete id => (Delete ms id).2
  | Op.clear => Clear ms

/-- Run a sequence of operations from a starting state. -/
def runOps (ms : MemoryStorage) (ops : List Op) : MemoryStorage :=
  ops.foldl applyOp ms

/-- The clock reading an operation observes, if it observes one. -/
def opTime : Op → Option Nat
  | Op.create _ now _ => some now
  | Op.update _ _ now => some now
  | Op.delete _ => none
  | Op.clear => none

/-- Clock monotonicity of an operation sequence: the observed clock readings
are nondecreasing and at least the given starting reading (Go's `time.Now()`
on one machine). -/
def chronoB : Nat → List Op → Bool
  | _, [] => true
  | n, op :: rest =>
    match opTime op with
    | none => chronoB n rest
    | some m => decide (n ≤ m) && chronoB m rest

/-- The per-record invariant of stored tasks: validated name (non-empty,
Go byte length at most 255), valid status, and `updated_at >= created_at`. -/
def TaskWF (t : Task) : Prop :=
  t.Name ≠ "" ∧ t.Name.utf8ByteSize ≤ 255 ∧ TaskStatus.IsValid t.Status = true ∧
    t.CreatedAt ≤ t.UpdatedAt

/-- Every stored record satisfies the per-record invariant. -/
def StoreInv (ms : MemoryStorage) : Prop :=
  ∀ t ∈ GetAll ms, TaskWF t

/-- Every stored record's timestamps are at most the given clock reading. -/
def ClockLE (ms : MemoryStorage) (n : Nat) : Prop :=
  ∀ t ∈ GetAll ms, t.CreatedAt ≤ n ∧ t.UpdatedAt ≤ n

/-! ### Shard-level lemmas -/

theorem shardFind_insert_self (sh : Shard) (id : String) (t : Task) :
    shardFind (shardInsert sh id t) id = some t := by
  induction sh with
  | nil => simp [shardInsert, shardFind]
  | cons p rest ih =>
    obtain ⟨k, v⟩ := p
    by_cases h : k = id
    · simp [shardInsert, h, shardFind]
    · simp [shardInsert, h, shardFind, ih]

theorem shardFind_insert_ne (sh : Shard) {id id' : String} (t : Task) (h : id' ≠ id) :
    shardFind (shardInsert sh id t) id' = shardFind sh id' := by
  induction sh with
  | nil => simp [shardInsert, shardFind, Ne.symm h]
  | cons p rest ih =>
    obtain ⟨k, v⟩ := p
    by_cases hk : k = id
    · subst hk
      simp [shardInsert, shardFind, Ne.symm h]
    · simp only [shardInsert, if_neg hk, shardFind, ih]

theorem mem_insert_pairs {sh : Shard} {id : String} {t : Task} {p : String × Task}
    (h : p ∈ shardInsert sh id t) : p = (id, t) ∨ p ∈ sh := by
  induction sh with
  | nil => simpa [shardInsert] using h
  | cons q rest ih =>
    obtain ⟨k, v⟩ := q
    by_cases hk : k = id
    · rw [shardInsert, if_pos hk] at h
      rcases List.mem_cons.mp h with h | h
      · exact Or.inl h
      · exact Or.inr (List.mem_cons_of_mem _ h)
    · rw [shardInsert, if_neg hk] at h
      rcases List.mem_cons.mp h with h | h
      · exact Or.inr (h ▸ List.mem_cons_self _ _)
      · rcases ih h with h' | h'
        · exact Or.inl h'
        · exact Or.inr (List.mem_cons_of_mem _ h')

theorem mem_map_snd_insert {sh : Shard} {id : String} {t v : Task}
    (h : v ∈ (shardInsert sh id t).map Prod.snd) : v = t ∨ v ∈ sh.map Prod.snd := by
  rcases List.mem_map.mp h with ⟨p, hp, hv⟩
  rcases mem_insert_pairs hp with h' | h'
  · left
    rw [← hv, h']
  · right
    exact List.mem_map.mpr ⟨p, h', hv⟩

theorem mem_erase_pairs {sh : Shard} {id : String} {p : String × Task}
    (h : p ∈ shardErase sh id) : p ∈ sh := by
  induction sh with
  | nil => simp [shardErase] at h
  | cons q rest ih =>
    obtain ⟨k, v⟩ := q
    by_cases hk : k = id
    · rw [shardErase, if_pos hk] at h
      exact List.mem_cons_of_mem _ h
    · rw [shardErase, if_neg hk] at h
      rcases List.mem_cons.mp h with h | h
      · exact h ▸ List.mem_cons_self _ _
      · exact List.mem_cons_of_mem _ (ih h)

theorem mem_map_snd_erase {sh : Shard} {id : String} {v : Task}
    (h : v ∈ (shardErase sh id).map Prod.snd) : v ∈ sh.map Prod.snd := by
  rcases List.mem_map.mp h with ⟨p, hp, hv⟩
  exact List.mem_map.mpr ⟨p, mem_erase_pairs hp, hv⟩

theorem shardFind_eq_some_mem {sh : Shard} {id : String} {t : Task}
    (h : shardFind sh id = some t) : (id, t) ∈ sh := by
  induction sh with
  | nil => simp [shardFind] at h
  | cons q rest ih =>
    obtain ⟨k, v⟩ := q
    by_cases hk : k = id
    · rw [shardFind, if_pos hk] at h
      cases h
      exact hk ▸ List.mem_cons_self _ _
    · rw [shardFind, if_neg hk] at h
      exact List.mem_cons_of_mem _ (ih h)

theorem shardFind_mem {sh : Shard} {id : String} {t : Task}
    (h : shardFind sh id = some t) : t ∈ sh.map Prod.snd :=
  List.mem_map.mpr ⟨(id, t), shardFind_eq_some_mem h, rfl⟩

/-! ### Store-level lemmas -/

theorem mem_getAll {ms : MemoryStorage} {t : Task} :
    t ∈ GetAll ms ↔ ∃ sh ∈ ms.shards, t ∈ sh.map Prod.snd := by
  simp [GetAll, List.mem_flatten]

theorem getShard_eq_of_lt {ms : MemoryStorage} {key : String}
    (h : getShardIndex ms key < ms.shards.length) :
    getShard ms key = ms.shards[getShardIndex ms key] := by
  simp [getShard, List.getD_eq_getElem?_getD, List.getElem?_eq_getElem h]

theorem getShard_mem_of_lt {ms : MemoryStorage} {key : String}
    (h : getShardIndex ms key < ms.shards.length) :
    getShard ms key ∈ ms.shards := by
  rw [getShard_eq_of_lt h]
  exact List.getElem_mem h

theorem getShard_nil_of_le {ms : MemoryStorage} {key : String}
    (h : ms.shards.length ≤ getShardIndex ms key) :
    getShard ms key = [] := by
  simp [getShard, List.getD_eq_getElem?_getD, List.getElem?_eq_none h]

/-- Under `WF`, the shard index is in range. -/
theorem getShardIndex_lt_of_wf {ms : MemoryStorage} (h : WF ms) (key : String) :
    getShardIndex ms key < ms.shards.length := by
  rw [h.1]
  exact Nat.mod_lt _ h.2

theorem getD_set_self {l : List Shard} {i : Nat} (h : i < l.length) (x d : Shard) :
    (l.set i x).getD i d = x := by
  simp [List.getD_eq_getElem?_getD, List.getElem?_set_self h]

/-! ### Operation characterisations -/

theorem Create_validation {ms : MemoryStorage} {req : CreateTaskRequest} {now : Nat}
    {taskID : String} {msg : String} (h : CreateTaskRequest.Validate req = some msg) :
    Create ms req now taskID = (Except.error (StorageError.validationError msg), ms) := by
  simp [Create, h]

theorem Create_capacity {ms : MemoryStorage} {req : CreateTaskRequest} {now : Nat}
    {taskID : String} (h : CreateTaskRequest.Validate req = none)
    (hc : ms.maxTasks ≤ ms.taskCount) :
    Create ms req now taskID = (Except.error (StorageError.capacityExceeded ms.maxTasks), ms) := by
  simp [Create, h, hc]

theorem Create_eq_ok {ms : MemoryStorage} {req : CreateTaskRequest} {now : Nat}
    {taskID : String} (h : CreateTaskRequest.Validate req = none)
    (hc : ms.taskCount < ms.maxTasks) :
    Create ms req now taskID =
      (Except.ok
        { ID := taskID, Name := req.Name, Status := req.Status, CreatedAt := now,
          UpdatedAt := now },
       { ms with
         shards := ms.shards.set (getShardIndex ms taskID)
           (shardInsert (getShard ms taskID) taskID
             { ID := taskID, Name := req.Name, Status := req.Status, CreatedAt := now,
               UpdatedAt := now })
         taskCount := ms.taskCount + 1 }) := by
  simp [Create, h, Int.not_le.mpr hc, NewTask]

theorem Create_ok_inv {ms : MemoryStorage} {req : CreateTaskRequest} {now : Nat}
    {taskID : String} {t : Task} (h : (Create ms req now taskID).1 = Except.ok t) :
    CreateTaskRequest.Validate req = none ∧ ms.taskCount < ms.maxTasks ∧
      t = { ID := taskID, Name := req.Name, Status := req.Status, CreatedAt := now,
            UpdatedAt := now } := by
  cases hv : CreateTaskRequest.Validate req with
  | some msg => rw [Create_validation hv] at h; simp at h
  | none =>
    by_cases hc : ms.maxTasks ≤ ms.taskCount
    · rw [Create_capacity hv hc] at h
      simp at h
    · have hc' := Int.not_le.mp hc
      rw [Create_eq_ok hv hc'] at h
      simp at h
      exact ⟨rfl, hc', h.symm⟩

theorem Create_error_state {ms : MemoryStorage} {req : CreateTaskRequest} {now : Nat}
    {taskID : String} {e : StorageError} (h : (Create ms req now taskID).1 = Except.error e) :
    (Create ms req now taskID).2 = ms := by
  cases hv : CreateTaskRequest.Validate req with
  | some msg => rw [Create_validation hv]
  | none =>
    by_cases hc : ms.maxTasks ≤ ms.taskCount
    · rw [Create_capacity hv hc]
    · rw [Create_eq_ok hv (Int.not_le.mp hc)] at h ⊢
      simp at h

theorem Update_validation {ms : MemoryStorage} {id : String} {req : UpdateTaskRequest}
    {now : Nat} {msg : String} (h : UpdateTaskRequest.Validate req = some msg) :
    Update ms id req now = (Except.error (StorageError.validationError msg), ms) := by
  simp [Update, h]

theorem Update_noOp {ms : MemoryStorage} {id : String} {req : UpdateTaskRequest} {now : Nat}
    (h : UpdateTaskRequest.Validate req = none) (hu : UpdateTaskRequest.HasUpdates req = false) :
    Update ms id req now = (Except.error StorageError.noOpUpdate, ms) := by
  simp [Update, h, hu]

theorem Update_notFound {ms : MemoryStorage} {id : String} {req : UpdateTaskRequest} {now : Nat}
    (h : UpdateTaskRequest.Validate req = none) (hu : UpdateTaskRequest.HasUpdates req = true)
    (hf : shardFind (getShard ms id) id = none) :
    Update ms id req now = (Except.error (StorageError.notFound id), ms) := by
  simp [Update, h, hu, hf]

theorem Update_eq_ok {ms : MemoryStorage} {id : String} {req : UpdateTaskRequest} {now : Nat}
    {task : Task} (h : UpdateTaskRequest.Validate req = none)
    (hu : UpdateTaskRequest.HasUpdates req = true)
    (hf : shardFind (getShard ms id) id = some task) :
    Update ms id req now =
      (Except.ok (UpdateTaskRequest.ApplyTo req now task),
       { ms with
         shards := ms.shards.set (getShardIndex ms id)
           (shardInsert (getShard ms id) id (UpdateTaskRequest.ApplyTo req now task)) }) := by
  simp [Update, h, hu, hf]

theorem Update_ok_inv {ms : MemoryStorage} {id : String} {req : UpdateTaskRequest} {now : Nat}
    {t' : Task} (h : (Update ms id req now).1 = Except.ok t') :
    ∃ task, UpdateTaskRequest.Validate req = none ∧ UpdateTaskRequest.HasUpdates req = true ∧
      shardFind (getShard ms id) id = some task ∧
      t' = UpdateTaskRequest.ApplyTo req now task := by
  cases hv : UpdateTaskRequest.Validate req with
  | some msg => rw [Update_validation hv] at h; simp at h
  | none =>
    cases hu : UpdateTaskRequest.HasUpdates req with
    | false => rw [Update_noOp hv hu] at h; simp at h
    | true =>
      cases hf : shardFind (getShard ms id) id with
      | none => rw [Update_notFound hv hu hf] at h; simp at h
      | some task =>
        rw [Update_eq_ok hv hu hf] at h
        simp at h
        exact ⟨task, rfl, rfl, rfl, h.symm⟩

theorem Update_error_state {ms : MemoryStorage} {id : String} {req : UpdateTaskRequest}
    {now : Nat} {e : StorageError} (h : (Update ms id req now).1 = Except.error e) :
    (Update ms id req now).2 = ms := by
  cases hv : UpdateTaskRequest.Validate req with
  | some msg => rw [Update_validation hv]
  | none =>
    cases hu : UpdateTaskRequest.HasUpdates req with
    | false => rw [Update_noOp hv hu]
    | true =>
      cases hf : shardFind (getShard ms id) id with
      | none => rw [Update_notFound hv hu hf]
      | some task =>
        rw [Update_eq_ok hv hu hf] at h ⊢
        simp at h

theorem Delete_notFound {ms : MemoryStorage} {id : String}
    (hf : shardFind (getShard ms id) id = none) :
    Delete ms id = (some (StorageError.notFound id), ms) := by
  simp [Delete, hf]

theorem Delete_eq_ok {ms : MemoryStorage} {id : String} {task : Task}
    (hf : shardFind (getShard ms id) id = some task) :
    Delete ms id =
      (none,
       { ms with
         shards := ms.shards.set (getShardIndex ms id) (shardErase (getShard ms id) id)
         taskCount := ms.taskCount - 1 }) := by
  simp [Delete, hf]

theorem Delete_error_state {ms : MemoryStorage} {id : String} {e : StorageError}
    (h : (Delete ms id).1 = some e) : (Delete ms id).2 = ms := by
  cases hf : shardFind (getShard ms id) id with
  | none => rw [Delete_notFound hf]
  | some task =>
    rw [Delete_eq_ok hf] at h ⊢
    simp at h

theorem GetByID_ok_iff {ms : MemoryStorage} {id : String} {t : Task} :
    GetByID ms id = Except.ok t ↔ shardFind (getShard ms id) id = some t := by
  cases hf : shardFind (getShard ms id) id <;> simp [GetByID, hf]

theorem GetByID_notFound_iff {ms : MemoryStorage} {id : String} :
    GetByID ms id = Except.error (StorageError.notFound id) ↔
      shardFind (getShard ms id) id = none := by
  cases hf : shardFind (getShard ms id) id <;> simp [GetByID, hf]

/-! ### Well-formedness preservation -/

theorem wf_new (maxTasks : Int) : WF (NewMemoryStorage maxTasks) := by
  refine ⟨by simp [NewMemoryStorage], ?_⟩
  show 0 < (NewMemoryStorage maxTasks).shardCount
  simp only [NewMemoryStorage]
  split_ifs <;> norm_num

theorem wf_create_state {ms : MemoryStorage} {req : CreateTaskRequest} {now : Nat}
    {taskID : String} (h : WF ms) : WF (Create ms req now taskID).2 := by
  cases hv : CreateTaskRequest.Validate req with
  | some msg => rw [Create_validation hv]; exact h
  | none =>
    by_cases hc : ms.maxTasks ≤ ms.taskCount
    · rw [Create_capacity hv hc]; exact h
    · rw [Create_eq_ok hv (Int.not_le.mp hc)]
      exact ⟨by simp [h.1], h.2⟩

theorem wf_update_state {ms : MemoryStorage} {id : String} {req : UpdateTaskRequest}
    {now : Nat} (h : WF ms) : WF (Update ms id req now).2 := by
  cases hv : UpdateTaskRequest.Validate req with
  | some msg => rw [Update_validation hv]; exact h
  | none =>
    cases hu : UpdateTaskRequest.HasUpdates req with
    | false => rw [Update_noOp hv hu]; exact h
    | true =>
      cases hf : shardFind (getShard ms id) id with
      | none => rw [Update_notFound hv hu hf]; exact h
      | some task =>
        rw [Update_eq_ok hv hu hf]
        exact ⟨by simp [h.1], h.2⟩

theorem wf_delete_state {ms : MemoryStorage} {id : String} (h : WF ms) :
    WF (Delete ms id).2 := by
  cases hf : shardFind (getShard ms id) id with
  | none => rw [Delete_notFound hf]; exact h
  | some task =>
    rw [Delete_eq_ok hf]
    exact ⟨by simp [h.1], h.2⟩

theorem wf_clear {ms : MemoryStorage} (h : WF ms) : WF (Clear ms) := by
  exact ⟨by simp [Clear, h.1], h.2⟩

/-! ### FNV-1a spec twin and create-then-find lemmas -/

theorem fnvSpecAux_eq_foldl (h : Nat) (l : List Nat) :
    fnvSpecAux h l = l.foldl fnvSpecStep h := by
  induction l generalizing h with
  | nil => rfl
  | cons b bs ih => simp [fnvSpecAux, ih]

theorem fnvSpec_eq_foldl (l : List Nat) : fnvSpec l = l.foldl fnvSpecStep 2166136261 :=
  fnvSpecAux_eq_foldl 2166136261 l

theorem fnv32Hash_eq_spec (key : String) :
    fnv32Hash key = fnvSpec ((stringBytes key).map UInt8.toNat) := by
  rw [fnvSpec_eq_foldl, List.foldl_map]
  rfl

theorem fnv32Hash_lt (key : String) : fnv32Hash key < 4294967296 := by
  have main : ∀ (l : List UInt8) (h : Nat), h < 4294967296 →
      l.foldl (fun hash b => ((hash ^^^ b.toNat) * 16777619) % 4294967296) h < 4294967296 := by
    intro l
    induction l with
    | nil => intro h hh; exact hh
    | cons b bs ih =>
      intro h hh
      exact ih _ (Nat.mod_lt _ (by norm_num))
  exact main _ _ (by norm_num)

theorem create_ok_find {ms : MemoryStorage} {req : CreateTaskRequest} {now : Nat}
    {taskID : String} {t : Task} (hwf : WF ms)
    (h : (Create ms req now taskID).1 = Except.ok t) :
    shardFind (getShard (Create ms req now taskID).2 taskID) taskID = some t := by
  obtain ⟨hv, hc, ht⟩ := Create_ok_inv h
  rw [Create_eq_ok hv hc]
  have hidx : getShardIndex ms taskID < ms.shards.length := getShardIndex_lt_of_wf hwf taskID
  simp only [getShard, getShardIndex] at hidx ⊢
  rw [getD_set_self hidx, shardFind_insert_self, ht]

/-! ### Claim C7 -/

/-- C7: the shard index of an id is the FNV-1a 32-bit hash of the id (offset
basis 2166136261, prime 16777619, xor-then-multiply per byte, verified against
the spec-twin `fnvSpec`) taken modulo the shard count; it is a pure function
of the id with value below `2^32`, the index is strictly below the shard count
whenever there is at least one shard, and a record inserted by a successful
`Create` is found by a subsequent `GetByID`, `Update` (valid non-empty
request) or `Delete` on the same id. -/
theorem shard_selection_spec :
    (∀ key, fnv32Hash key = fnvSpec ((stringBytes key).map UInt8.toNat) ∧
      fnv32Hash key < 4294967296) ∧
    (∀ ms key, getShardIndex ms key = fnv32Hash key % ms.shardCount) ∧
    (∀ ms key, 0 < ms.shardCount → getShardIndex ms key < ms.shardCount) ∧
    (∀ ms req now taskID t, WF ms → (Create ms req now taskID).1 = Except.ok t →
      GetByID (Create ms req now taskID).2 taskID = Except.ok t ∧
      (∀ req2 now2, UpdateTaskRequest.Validate req2 = none →
        UpdateTaskRequest.HasUpdates req2 = true →
        (Update (Create ms req now taskID).2 taskID req2 now2).1 =
          Except.ok (UpdateTaskRequest.ApplyTo req2 now2 t)) ∧
      (Delete (Create ms req now taskID).2 taskID).1 = none) := by
  refine ⟨fun key => ⟨fnv32Hash_eq_spec key, fnv32Hash_lt key⟩,
    fun ms key => rfl,
    fun ms key h => Nat.mod_lt _ h,
    fun ms req now taskID t hwf h => ?_⟩
  have hfind := create_ok_find hwf h
  refine ⟨GetByID_ok_iff.mpr hfind, fun req2 now2 hv2 hu2 => ?_, ?_⟩
  · rw [Update_eq_ok hv2 hu2 hfind]
  · rw [Delete_eq_ok hfind]

theorem shard_selection_witness :
    (0 < (NewMemoryStorage 5).shardCount ∧
      getShardIndex (NewMemoryStorage 5) "id-1" < (NewMemoryStorage 5).shardCount) ∧
    (WF (NewMemoryStorage 5) ∧
      (Create (NewMemoryStorage 5) ⟨"groceries", 0⟩ 7 "id-1").1 =
        Except.ok { ID := "id-1", Name := "groceries", Status := 0, CreatedAt := 7,
                    UpdatedAt := 7 } ∧
      GetByID (Create (NewMemoryStorage 5) ⟨"groceries", 0⟩ 7 "id-1").2 "id-1" =
        Except.ok { ID := "id-1", Name := "groceries", Status := 0, CreatedAt := 7,
                    UpdatedAt := 7 } ∧
      (Delete (Create (NewMemoryStorage 5) ⟨"groceries", 0⟩ 7 "id-1").2 "id-1").1 = none) :=
  ⟨⟨by decide, shard_selection_spec.2.2.1 (NewMemoryStorage 5) "id-1" (by decide)⟩,
   ⟨by decide, by decide,
    (shard_selection_spec.2.2.2 (NewMemoryStorage 5) ⟨"groceries", 0⟩ 7 "id-1"
      { ID := "id-1", Name := "groceries", Status := 0, CreatedAt := 7, UpdatedAt := 7 }
      (by decide) (by decide)).1,
    (shard_selection_spec.2.2.2 (NewMemoryStorage 5) ⟨"groceries", 0⟩ 7 "id-1"
      { ID := "id-1", Name := "groceries", Status := 0, CreatedAt := 7, UpdatedAt := 7 }
      (by decide) (by decide)).2.2⟩⟩

/-! ### Claim C1 -/

theorem createSeq_ok (inputs : List (CreateTaskRequest × Nat × String)) :
    ∀ ms : MemoryStorage, (∀ x ∈ inputs, CreateTaskRequest.Validate x.1 = none) →
      ms.taskCount + (inputs.length : Int) ≤ ms.maxTasks →
      ∃ ms', createSeq ms inputs = Except.ok ms' ∧
        ms'.taskCount = ms.taskCount + (inputs.length : Int) ∧
        ms'.maxTasks = ms.maxTasks := by
  induction inputs with
  | nil =>
    intro ms _ _
    exact ⟨ms, rfl, by simp, rfl⟩
  | cons x rest ih =>
    obtain ⟨req, now, taskID⟩ := x
    intro ms hval hcap
    have hv : CreateTaskRequest.Validate req = none := hval _ (List.mem_cons_self _ _)
    have hc : ms.taskCount < ms.maxTasks := by
      simp only [List.length_cons] at hcap
      push_cast at hcap
      omega
    have hstep : Create ms req now taskID =
        (Except.ok
          { ID := taskID, Name := req.Name, Status := req.Status, CreatedAt := now,
            UpdatedAt := now },
         { ms with
           shards := ms.shards.set (getShardIndex ms taskID)
             (shardInsert (getShard ms taskID) taskID
               { ID := taskID, Name := req.Name, Status := req.Status, CreatedAt := now,
                 UpdatedAt := now })
           taskCount := ms.taskCount + 1 }) := Create_eq_ok hv hc
    obtain ⟨ms', hrun, hcount, hmax⟩ :=
      ih { ms with
            shards := ms.shards.set (getShardIndex ms taskID)
              (shardInsert (getShard ms taskID) taskID
                { ID := taskID, Name := req.Name, Status := req.Status, CreatedAt := now,
                  UpdatedAt := now })
            taskCount := ms.taskCount + 1 }
        (fun x hx => hval x (List.mem_cons_of_mem _ hx))
        (by simp only [List.length_cons] at hcap; push_cast at hcap ⊢; omega)
    refine ⟨ms', ?_, ?_, hmax⟩
    · rw [createSeq, hstep]
      exact hrun
    · rw [hcount]
      simp only [List.length_cons]
      push_cast
      omega

theorem Delete_none_inv {ms ms' : MemoryStorage} {id : String}
    (h : Delete ms id = (none, ms')) :
    ms'.taskCount = ms.taskCount - 1 ∧ ms'.maxTasks = ms.maxTasks := by
  cases hf : shardFind (getShard ms id) id with
  | none =>
    rw [Delete_notFound hf] at h
    simp at h
  | some task =>
    rw [Delete_eq_ok hf] at h
    injection h with h1 h2
    rw [← h2]
    exact ⟨rfl, rfl⟩

/-- C1: with ceiling `k`, `Create` of a valid request fails with
`CapacityExceeded` exactly when the counter is at or above the ceiling at the
time of the check; in particular after `k` successful sequential creates from
a fresh store the next create fails with `CapacityExceeded`, and after one
successful delete a subsequent valid create succeeds. -/
theorem capacity_enforcement :
    (∀ ms req now taskID, CreateTaskRequest.Validate req = none →
      ((Create ms req now taskID).1 =
          Except.error (StorageError.capacityExceeded ms.maxTasks) ↔
        ms.maxTasks ≤ ms.taskCount)) ∧
    (∀ (k : Int) (inputs : List (CreateTaskRequest × Nat × String)), 0 < k →
      (inputs.length : Int) = k →
      (∀ x ∈ inputs, CreateTaskRequest.Validate x.1 = none) →
      ∃ ms', createSeq (NewMemoryStorage k) inputs = Except.ok ms' ∧
        ms'.taskCount = k ∧
        (∀ req now taskID, CreateTaskRequest.Validate req = none →
          (Create ms' req now taskID).1 =
            Except.error (StorageError.capacityExceeded k)) ∧
        (∀ id ms'', Delete ms' id = (none, ms'') →
          ∀ req2 now2 taskID2, CreateTaskRequest.Validate req2 = none →
            ∃ t, (Create ms'' req2 now2 taskID2).1 = Except.ok t)) := by
  constructor
  · intro ms req now taskID hv
    constructor
    · intro h
      by_cases hc : ms.maxTasks ≤ ms.taskCount
      · exact hc
      · rw [Create_eq_ok hv (Int.not_le.mp hc)] at h
        simp at h
    · intro hc
      rw [Create_capacity hv hc]
  · intro k inputs hk hlen hval
    have hmax0 : (NewMemoryStorage k).maxTasks = k := by
      simp only [NewMemoryStorage]
      rw [if_neg (by omega)]
    have hcount0 : (NewMemoryStorage k).taskCount = 0 := rfl
    obtain ⟨ms', hrun, hcount, hmax⟩ := createSeq_ok inputs (NewMemoryStorage k) hval
      (by rw [hmax0, hcount0, hlen]; omega)
    have hcount' : ms'.taskCount = k := by rw [hcount, hcount0, hlen]; omega
    refine ⟨ms', hrun, hcount', ?_, ?_⟩
    · intro req now taskID hv
      have hfull : ms'.maxTasks ≤ ms'.taskCount := by rw [hmax, hmax0, hcount']
      rw [Create_capacity hv hfull, hmax, hmax0]
    · intro id ms'' hdel req2 now2 taskID2 hv2
      obtain ⟨hcnt, hmx⟩ := Delete_none_inv hdel
      have hc : ms''.taskCount < ms''.maxTasks := by
        rw [hcnt, hmx, hmax, hmax0, hcount']
        omega
      exact ⟨_, by rw [Create_eq_ok hv2 hc]⟩

theorem capacity_enforcement_witness :
    (CreateTaskRequest.Validate ⟨"a", 0⟩ = none ∧
      ((Create (NewMemoryStorage 1) ⟨"a", 0⟩ 1 "u0").1 =
          Except.error (StorageError.capacityExceeded (NewMemoryStorage 1).maxTasks) ↔
        (NewMemoryStorage 1).maxTasks ≤ (NewMemoryStorage 1).taskCount)) ∧
    ((0 : Int) < 2 ∧
      ((([(⟨"a", 0⟩, 1, "u1"), (⟨"b", 1⟩, 2, "u2")] :
          List (CreateTaskRequest × Nat × String)).length : Int) = 2) ∧
      ∃ ms', createSeq (NewMemoryStorage 2)
            [(⟨"a", 0⟩, 1, "u1"), (⟨"b", 1⟩, 2, "u2")] = Except.ok ms' ∧
        ms'.taskCount = 2 ∧
        (∀ req now taskID, CreateTaskRequest.Validate req = none →
          (Create ms' req now taskID).1 =
            Except.error (StorageError.capacityExceeded 2)) ∧
        (∀ id ms'', Delete ms' id = (none, ms'') →
          ∀ req2 now2 taskID2, CreateTaskRequest.Validate req2 = none →
            ∃ t, (Create ms'' req2 now2 taskID2).1 = Except.ok t)) :=
  ⟨⟨by decide, capacity_enforcement.1 (NewMemoryStorage 1) ⟨"a", 0⟩ 1 "u0" (by decide)⟩,
   ⟨by decide, by decide,
    capacity_enforcement.2 2 [(⟨"a", 0⟩, 1, "u1"), (⟨"b", 1⟩, 2, "u2")]
      (by decide) (by decide) (by decide)⟩⟩

/-! ### Claim C2 -/

/-- C2: for a valid input (non-empty name whose Go `len` — the UTF-8 byte
count — is at most 255, and a valid status) and available capacity, `Create`
succeeds and `GetByID` on the returned record's id yields a record whose name
and status equal the supplied values, with both timestamps set (non-zero,
since the clock reading is non-zero). -/
theorem create_roundtrip (ms : MemoryStorage) (req : CreateTaskRequest) (now : Nat)
    (taskID : String) (hwf : WF ms) (hn : req.Name ≠ "")
    (hlen : req.Name.utf8ByteSize ≤ 255) (hs : TaskStatus.IsValid req.Status = true)
    (hcap : ms.taskCount < ms.maxTasks) (hnow : 0 < now) :
    ∃ t, (Create ms req now taskID).1 = Except.ok t ∧
      GetByID (Create ms req now taskID).2 t.ID = Except.ok t ∧
      t.Name = req.Name ∧ t.Status = req.Status ∧ t.CreatedAt ≠ 0 ∧ t.UpdatedAt ≠ 0 := by
  have hv : CreateTaskRequest.Validate req = none := by
    simp [CreateTaskRequest.Validate, hn, Nat.not_lt.mpr hlen, hs]
  have h1 : (Create ms req now taskID).1 =
      Except.ok { ID := taskID, Name := req.Name, Status := req.Status, CreatedAt := now,
                  UpdatedAt := now } := by
    rw [Create_eq_ok hv hcap]
  refine ⟨_, h1, ?_, rfl, rfl, show now ≠ 0 by omega, show now ≠ 0 by omega⟩
  exact GetByID_ok_iff.mpr (create_ok_find hwf h1)

theorem create_roundtrip_witness :
    (WF (NewMemoryStorage 5) ∧ ("groceries" : String) ≠ "" ∧
      ("groceries" : String).utf8ByteSize ≤ 255 ∧ TaskStatus.IsValid 0 = true ∧
      (NewMemoryStorage 5).taskCount < (NewMemoryStorage 5).maxTasks ∧ 0 < 7) ∧
    (∃ t, (Create (NewMemoryStorage 5) ⟨"groceries", 0⟩ 7 "id-1").1 = Except.ok t ∧
      GetByID (Create (NewMemoryStorage 5) ⟨"groceries", 0⟩ 7 "id-1").2 t.ID = Except.ok t ∧
      t.Name = "groceries" ∧ t.Status = 0 ∧ t.CreatedAt ≠ 0 ∧ t.UpdatedAt ≠ 0) :=
  ⟨⟨by decide, by decide, by decide, by decide, by decide, by decide⟩,
   create_roundtrip (NewMemoryStorage 5) ⟨"groceries", 0⟩ 7 "id-1" (by decide) (by decide)
     (by decide) (by decide) (by decide) (by decide)⟩

/-! ### Claim C3 -/

/-- C3: updating only the name leaves the status (and id, `created_at`)
unchanged and vice versa; every successful update leaves id and `created_at`
unchanged and stamps `updated_at` with the current clock reading, which under
a monotone clock is never less than the prior `updated_at`; a valid non-empty
update of an absent id returns `NotFound`; an update with neither field
supplied returns `NoOpUpdate`. -/
theorem update_semantics :
    (∀ ms id t n now, GetByID ms id = Except.ok t → n ≠ "" → n.utf8ByteSize ≤ 255 →
      (Update ms id ⟨some n, none⟩ now).1 =
        Except.ok { t with Name := n, UpdatedAt := now }) ∧
    (∀ ms id t s now, GetByID ms id = Except.ok t → TaskStatus.IsValid s = true →
      (Update ms id ⟨none, some s⟩ now).1 =
        Except.ok { t with Status := s, UpdatedAt := now }) ∧
    (∀ ms id t req now t', GetByID ms id = Except.ok t →
      (Update ms id req now).1 = Except.ok t' →
      t'.ID = t.ID ∧ t'.CreatedAt = t.CreatedAt ∧ t'.UpdatedAt = now ∧
      (t.UpdatedAt ≤ now → t.UpdatedAt ≤ t'.UpdatedAt)) ∧
    (∀ ms id req now, UpdateTaskRequest.Validate req = none →
      UpdateTaskRequest.HasUpdates req = true →
      GetByID ms id = Except.error (StorageError.notFound id) →
      (Update ms id req now).1 = Except.error (StorageError.notFound id)) ∧
    (∀ ms id now,
      (Update ms id ⟨none, none⟩ now).1 = Except.error StorageError.noOpUpdate) := by
  refine ⟨?_, ?_, ?_, ?_, ?_⟩
  · intro ms id t n now h hn hlen
    have hv : UpdateTaskRequest.Validate ⟨some n, none⟩ = none := by
      simp [UpdateTaskRequest.Validate, hn, Nat.not_lt.mpr hlen, statusFieldCheck]
    rw [Update_eq_ok hv rfl (GetByID_ok_iff.mp h)]
    simp [UpdateTaskRequest.ApplyTo]
  · intro ms id t s now h hs
    have hv : UpdateTaskRequest.Validate ⟨none, some s⟩ = none := by
      simp [UpdateTaskRequest.Validate, statusFieldCheck, hs]
    rw [Update_eq_ok hv rfl (GetByID_ok_iff.mp h)]
    simp [UpdateTaskRequest.ApplyTo]
  · intro ms id t req now t' h hok
    obtain ⟨task, hv, hu, hf, ht'⟩ := Update_ok_inv hok
    have htask : task = t := by
      have h2 := GetByID_ok_iff.mp h
      rw [hf] at h2
      exact Option.some.inj h2
    subst htask
    subst ht'
    cases hname : req.Name with
    | some n =>
      cases hstat : req.Status with
      | some s =>
        refine ⟨?_, ?_, ?_, ?_⟩ <;>
          simp [UpdateTaskRequest.ApplyTo, hname, hstat]
      | none =>
        refine ⟨?_, ?_, ?_, ?_⟩ <;>
          simp [UpdateTaskRequest.ApplyTo, hname, hstat]
    | none =>
      cases hstat : req.Status with
      | some s =>
        refine ⟨?_, ?_, ?_, ?_⟩ <;>
          simp [UpdateTaskRequest.ApplyTo, hname, hstat]
      | none =>
        rw [UpdateTaskRequest.HasUpdates, hname, hstat] at hu
        simp at hu
  · intro ms id req now hv hu h
    rw [Update_notFound hv hu (GetByID_notFound_iff.mp h)]
  · intro ms id now
    rw [@Update_noOp ms id ⟨none, none⟩ now rfl rfl]

theorem update_semantics_witness :
    (GetByID (Create (NewMemoryStorage 5) ⟨"a", 0⟩ 1 "x").2 "x" =
        Except.ok { ID := "x", Name := "a", Status := 0, CreatedAt := 1, UpdatedAt := 1 } ∧
      ("b" : String) ≠ "" ∧ ("b" : String).utf8ByteSize ≤ 255 ∧
      (Update (Create (NewMemoryStorage 5) ⟨"a", 0⟩ 1 "x").2 "x" ⟨some "b", none⟩ 2).1 =
        Except.ok { ID := "x", Name := "b", Status := 0, CreatedAt := 1, UpdatedAt := 2 }) ∧
    (TaskStatus.IsValid 1 = true ∧
      (Update (Create (NewMemoryStorage 5) ⟨"a", 0⟩ 1 "x").2 "x" ⟨none, some 1⟩ 2).1 =
        Except.ok { ID := "x", Name := "a", Status := 1, CreatedAt := 1, UpdatedAt := 2 }) ∧
    (UpdateTaskRequest.Validate ⟨none, some 1⟩ = none ∧
      UpdateTaskRequest.HasUpdates ⟨none, some 1⟩ = true ∧
      GetByID (NewMemoryStorage 5) "nope" = Except.error (StorageError.notFound "nope") ∧
      (Update (NewMemoryStorage 5) "nope" ⟨none, some 1⟩ 2).1 =
        Except.error (StorageError.notFound "nope")) ∧
    (Update (NewMemoryStorage 5) "nope" ⟨none, none⟩ 2).1 =
      Except.error StorageError.noOpUpdate :=
  ⟨⟨by decide, by decide, by decide,
    update_semantics.1 (Create (NewMemoryStorage 5) ⟨"a", 0⟩ 1 "x").2 "x"
      { ID := "x", Name := "a", Status := 0, CreatedAt := 1, UpdatedAt := 1 } "b" 2
      (by decide) (by decide) (by decide)⟩,
   ⟨by decide,
    update_semantics.2.1 (Create (NewMemoryStorage 5) ⟨"a", 0⟩ 1 "x").2 "x"
      { ID := "x", Name := "a", Status := 0, CreatedAt := 1, UpdatedAt := 1 } 1 2
      (by decide) (by decide)⟩,
   ⟨by decide, by decide, by decide,
    update_semantics.2.2.2.1 (NewMemoryStorage 5) "nope" ⟨none, some 1⟩ 2
      (by decide) (by decide) (by decide)⟩,
   update_semantics.2.2.2.2 (NewMemoryStorage 5) "nope" 2⟩

/-! ### Claim C4 -/

/-- C4: for any store state, `offset ≥ 0` and `limit > 0`,
`GetTasksPaginated` reports `total` equal to the number of materialized
records and returns exactly the slice `[offset, min(offset+limit, total))` of
the materialized record list — hence `min(limit, max(0, total-offset))`
records (natural subtraction models the `max(0, ·)`), and zero records
whenever `offset ≥ total`. -/
theorem pagination_contract (ms : MemoryStorage) (offset limit : Int)
    (ho : 0 ≤ offset) (hl : 0 < limit) :
    (GetTasksPaginated ms offset limit).2 = ((GetAll ms).length : Int) ∧
    (GetTasksPaginated ms offset limit).1.length =
      min limit.toNat ((GetAll ms).length - offset.toNat) ∧
    (GetTasksPaginated ms offset limit).1 =
      ((GetAll ms).drop offset.toNat).take limit.toNat ∧
    (((GetAll ms).length : Int) ≤ offset → (GetTasksPaginated ms offset limit).1 = []) := by
  simp only [GetTasksPaginated]
  split_ifs with hc he
  · have hlen : (GetAll ms).length ≤ offset.toNat := by omega
    refine ⟨rfl, ?_, ?_, fun _ => rfl⟩
    · simp only [List.length_nil]
      rw [Nat.sub_eq_zero_of_le hlen, Nat.min_zero]
    · rw [List.drop_eq_nil_of_le hlen, List.take_nil]
  · have hlt : offset.toNat < (GetAll ms).length := by omega
    have htn : (((GetAll ms).length : Int) - offset).toNat =
        (GetAll ms).length - offset.toNat := by omega
    have hlim : (GetAll ms).length - offset.toNat ≤ limit.toNat := by omega
    refine ⟨rfl, ?_, ?_, fun hcon => absurd hcon hc⟩
    · simp only [List.length_take, List.length_drop, htn]
      omega
    · rw [htn, List.take_of_length_le (by simp [List.length_drop]),
        List.take_of_length_le (by simp [List.length_drop]; omega)]
  · have htn : (offset + limit - offset).toNat = limit.toNat := by omega
    refine ⟨rfl, ?_, ?_, fun hcon => absurd hcon hc⟩
    · simp only [htn, List.length_take, List.length_drop]
    · rw [htn]

theorem pagination_contract_witness :
    ((0 : Int) ≤ 1 ∧ (0 : Int) < 5) ∧
    ((GetTasksPaginated
        (Create (Create (Create (NewMemoryStorage 5) ⟨"a", 0⟩ 1 "x1").2
          ⟨"b", 1⟩ 2 "x2").2 ⟨"c", 0⟩ 3 "x3").2 1 5).2 =
      ((GetAll (Create (Create (Create (NewMemoryStorage 5) ⟨"a", 0⟩ 1 "x1").2
          ⟨"b", 1⟩ 2 "x2").2 ⟨"c", 0⟩ 3 "x3").2).length : Int) ∧
      (GetTasksPaginated
        (Create (Create (Create (NewMemoryStorage 5) ⟨"a", 0⟩ 1 "x1").2
          ⟨"b", 1⟩ 2 "x2").2 ⟨"c", 0⟩ 3 "x3").2 1 5).1.length =
        min ((5 : Int)).toNat
          ((GetAll (Create (Create (Create (NewMemoryStorage 5) ⟨"a", 0⟩ 1 "x1").2
            ⟨"b", 1⟩ 2 "x2").2 ⟨"c", 0⟩ 3 "x3").2).length - ((1 : Int)).toNat) ∧
      (GetTasksPaginated
        (Create (Create (Create (NewMemoryStorage 5) ⟨"a", 0⟩ 1 "x1").2
          ⟨"b", 1⟩ 2 "x2").2 ⟨"c", 0⟩ 3 "x3").2 1 5).1 =
        ((GetAll (Create (Create (Create (NewMemoryStorage 5) ⟨"a", 0⟩ 1 "x1").2
          ⟨"b", 1⟩ 2 "x2").2 ⟨"c", 0⟩ 3 "x3").2).drop ((1 : Int)).toNat).take
            ((5 : Int)).toNat ∧
      (((GetAll (Create (Create (Create (NewMemoryStorage 5) ⟨"a", 0⟩ 1 "x1").2
          ⟨"b", 1⟩ 2 "x2").2 ⟨"c", 0⟩ 3 "x3").2).length : Int) ≤ 1 →
        (GetTasksPaginated
          (Create (Create (Create (NewMemoryStorage 5) ⟨"a", 0⟩ 1 "x1").2
            ⟨"b", 1⟩ 2 "x2").2 ⟨"c", 0⟩ 3 "x3").2 1 5).1 = [])) :=
  ⟨⟨by decide, by decide⟩,
   pagination_contract
     (Create (Create (Create (NewMemoryStorage 5) ⟨"a", 0⟩ 1 "x1").2
       ⟨"b", 1⟩ 2 "x2").2 ⟨"c", 0⟩ 3 "x3").2 1 5 (by decide) (by decide)⟩

/-! ### Claim C5 -/

theorem getTasksByStatus_eq_filter (ms : MemoryStorage) (s : TaskStatus) :
    GetTasksByStatus ms s = (GetAll ms).filter (fun t => t.Status == s) := by
  simp [GetTasksByStatus, GetAll, List.filter_flatten, List.map_map, Function.comp_def]

theorem count_filter_partition (l : List Task)
    (h : ∀ t ∈ l, TaskStatus.IsValid t.Status = true) :
    (l.filter (fun t => t.Status == TaskStatus.TaskIncomplete)).length +
      (l.filter (fun t => t.Status == TaskStatus.TaskCompleted)).length = l.length := by
  induction l with
  | nil => rfl
  | cons t rest ih =>
    have ht : t.Status = TaskStatus.TaskIncomplete ∨ t.Status = TaskStatus.TaskCompleted := by
      have := h t (List.mem_cons_self _ _)
      simpa [TaskStatus.IsValid] using this
    have hih := ih fun x hx => h x (List.mem_cons_of_mem _ hx)
    have hne : TaskStatus.TaskIncomplete ≠ TaskStatus.TaskCompleted := by decide
    rcases ht with h0 | h1
    · rw [List.filter_cons, List.filter_cons, if_pos (by simp [h0]),
        if_neg (by simp [h0]; exact hne)]
      simp only [List.length_cons]
      omega
    · rw [List.filter_cons, List.filter_cons, if_neg (by simp [h1]; exact Ne.symm hne),
        if_pos (by simp [h1])]
      simp only [List.length_cons]
      omega

/-- C5: every record returned by `GetTasksByStatus s` has status `s`, and for
a store whose records all carry a valid status (an invariant of reachable
states, claim C6) the counts for the two valid statuses sum to the `GetAll`
count. -/
theorem status_filter_correctness (ms : MemoryStorage)
    (hall : ∀ t ∈ GetAll ms, TaskStatus.IsValid t.Status = true) :
    (∀ s t, t ∈ GetTasksByStatus ms s → t.Status = s) ∧
    (GetTasksByStatus ms TaskStatus.TaskIncomplete).length +
      (GetTasksByStatus ms TaskStatus.TaskCompleted).length = (GetAll ms).length := by
  constructor
  · intro s t ht
    rw [getTasksByStatus_eq_filter] at ht
    exact eq_of_beq (List.mem_filter.mp ht).2
  · rw [getTasksByStatus_eq_filter, getTasksByStatus_eq_filter]
    exact count_filter_partition (GetAll ms) hall

theorem status_filter_witness :
    (∀ t ∈ GetAll (Create (Create (NewMemoryStorage 5) ⟨"a", 0⟩ 1 "x1").2 ⟨"b", 1⟩ 2 "x2").2,
      TaskStatus.IsValid t.Status = true) ∧
    ((∀ s t, t ∈ GetTasksByStatus
        (Create (Create (NewMemoryStorage 5) ⟨"a", 0⟩ 1 "x1").2 ⟨"b", 1⟩ 2 "x2").2 s →
      t.Status = s) ∧
    (GetTasksByStatus (Create (Create (NewMemoryStorage 5) ⟨"a", 0⟩ 1 "x1").2
        ⟨"b", 1⟩ 2 "x2").2 TaskStatus.TaskIncomplete).length +
      (GetTasksByStatus (Create (Create (NewMemoryStorage 5) ⟨"a", 0⟩ 1 "x1").2
        ⟨"b", 1⟩ 2 "x2").2 TaskStatus.TaskCompleted).length =
      (GetAll (Create (Create (NewMemoryStorage 5) ⟨"a", 0⟩ 1 "x1").2
        ⟨"b", 1⟩ 2 "x2").2).length) :=
  ⟨by decide,
   status_filter_correctness
     (Create (Create (NewMemoryStorage 5) ⟨"a", 0⟩ 1 "x1").2 ⟨"b", 1⟩ 2 "x2").2 (by decide)⟩

/-! ### Claim C6: membership and invariant lemmas -/

theorem length_le_utf8ByteSize (s : String) : s.length ≤ s.utf8ByteSize := by
  cases s with
  | mk data =>
    show data.length ≤ String.utf8ByteSize.go data
    induction data with
    | nil => simp [String.utf8ByteSize.go]
    | cons c cs ih =>
      have hpos := Char.utf8Size_pos c
      simp only [String.utf8ByteSize.go, List.length_cons]
      omega

theorem mem_set_shards {ms ms' : MemoryStorage} {idx : Nat} {newSh : Shard}
    (hs : ms'.shards = ms.shards.set idx newSh) {t : Task} (h : t ∈ GetAll ms') :
    t ∈ newSh.map Prod.snd ∨ t ∈ GetAll ms := by
  rcases mem_getAll.mp h with ⟨sh, hsh, hmem⟩
  rw [hs] at hsh
  rcases List.mem_or_eq_of_mem_set hsh with h' | h'
  · exact Or.inr (mem_getAll.mpr ⟨sh, h', hmem⟩)
  · subst h'
    exact Or.inl hmem

theorem mem_getShard_sub {ms : MemoryStorage} {key : String} {t : Task}
    (h : t ∈ (getShard ms key).map Prod.snd) : t ∈ GetAll ms := by
  rcases Nat.lt_or_ge (getShardIndex ms key) ms.shards.length with hlt | hle
  · exact mem_getAll.mpr ⟨getShard ms key, getShard_mem_of_lt hlt, h⟩
  · rw [getShard_nil_of_le hle] at h
    simp at h

theorem create_ok_mem {ms : MemoryStorage} {req : CreateTaskRequest} {now : Nat}
    {taskID : String} {t : Task} (h : (Create ms req now taskID).1 = Except.ok t) :
    ∀ u ∈ GetAll (Create ms req now taskID).2, u = t ∨ u ∈ GetAll ms := by
  obtain ⟨hv, hc, ht⟩ := Create_ok_inv h
  intro u hu
  rw [Create_eq_ok hv hc] at hu
  rcases mem_set_shards rfl hu with h' | h'
  · rcases mem_map_snd_insert h' with h'' | h''
    · left
      rw [h'', ht]
    · right
      exact mem_getShard_sub h''
  · right
    exact h'

theorem update_ok_mem {ms : MemoryStorage} {id : String} {req : UpdateTaskRequest}
    {now : Nat} {t' : Task} (h : (Update ms id req now).1 = Except.ok t') :
    (∃ t0, t0 ∈ GetAll ms ∧ t' = UpdateTaskRequest.ApplyTo req now t0) ∧
    ∀ u ∈ GetAll (Update ms id req now).2, u = t' ∨ u ∈ GetAll ms := by
  obtain ⟨task, hv, hu, hf, ht'⟩ := Update_ok_inv h
  constructor
  · exact ⟨task, mem_getShard_sub (shardFind_mem hf), ht'⟩
  · intro u humem
    rw [Update_eq_ok hv hu hf] at humem
    rcases mem_set_shards rfl humem with h' | h'
    · rcases mem_map_snd_insert h' with h'' | h''
      · left
        rw [h'', ht']
      · right
        exact mem_getShard_sub h''
    · right
      exact h'

theorem delete_mem {ms : MemoryStorage} {id : String} :
    ∀ u ∈ GetAll (Delete ms id).2, u ∈ GetAll ms := by
  intro u hu
  cases hf : shardFind (getShard ms id) id with
  | none =>
    rw [Delete_notFound hf] at hu
    exact hu
  | some task =>
    rw [Delete_eq_ok hf] at hu
    rcases mem_set_shards rfl hu with h' | h'
    · exact mem_getShard_sub (mem_map_snd_erase h')
    · exact h'

theorem flatten_map_nil (l : List Shard) :
    (l.map (fun _ => ([] : List Task))).flatten = [] := by
  induction l with
  | nil => rfl
  | cons sh rest ih => simp [ih]

theorem getAll_clear (ms : MemoryStorage) : GetAll (Clear ms) = [] := by
  have : (Clear ms).shards.map (fun sh => sh.map Prod.snd) =
      ms.shards.map (fun _ => ([] : List Task)) := by
    simp [Clear, List.map_map, Function.comp_def]
  rw [GetAll, this, flatten_map_nil]

theorem flatten_replicate_nil (n : Nat) :
    (List.replicate n ([] : List Task)).flatten = [] := by
  induction n with
  | zero => rfl
  | succ k ih => simp [ih]

theorem getAll_new (maxTasks : Int) : GetAll (NewMemoryStorage maxTasks) = [] := by
  rw [GetAll]
  have : (NewMemoryStorage maxTasks).shards.map (fun sh => sh.map Prod.snd) =
      List.replicate (NewMemoryStorage maxTasks).shardCount ([] : List Task) := by
    simp [NewMemoryStorage, List.map_replicate]
  rw [this, flatten_replicate_nil]

theorem create_validate_inv {req : CreateTaskRequest}
    (h : CreateTaskRequest.Validate req = none) :
    req.Name ≠ "" ∧ req.Name.utf8ByteSize ≤ 255 ∧ TaskStatus.IsValid req.Status = true := by
  by_cases h1 : req.Name = ""
  · simp [CreateTaskRequest.Validate, h1] at h
  · by_cases h2 : 255 < req.Name.utf8ByteSize
    · simp [CreateTaskRequest.Validate, h1, h2] at h
    · by_cases h3 : TaskStatus.IsValid req.Status
      · exact ⟨h1, Nat.not_lt.mp h2, h3⟩
      · simp [CreateTaskRequest.Validate, h1, h2, h3] at h

theorem update_validate_inv {req : UpdateTaskRequest}
    (h : UpdateTaskRequest.Validate req = none) :
    (∀ n, req.Name = some n → n ≠ "" ∧ n.utf8ByteSize ≤ 255) ∧
    (∀ s, req.Status = some s → TaskStatus.IsValid s = true) := by
  have hstat : statusFieldCheck req.Status = none →
      ∀ s, req.Status = some s → TaskStatus.IsValid s = true := by
    intro hsc s hs
    rw [hs] at hsc
    by_cases h3 : TaskStatus.IsValid s
    · exact h3
    · simp [statusFieldCheck, h3] at hsc
  cases hn : req.Name with
  | none =>
    simp only [UpdateTaskRequest.Validate, hn] at h
    exact ⟨fun n hcon => by simp at hcon, hstat h⟩
  | some n =>
    simp only [UpdateTaskRequest.Validate, hn] at h
    by_cases h1 : n = ""
    · simp [h1] at h
    · by_cases h2 : 255 < n.utf8ByteSize
      · simp [h1, h2] at h
      · rw [if_neg h1, if_neg h2] at h
        refine ⟨fun m hm => ?_, hstat h⟩
        rw [Option.some.injEq] at hm
        exact hm ▸ ⟨h1, Nat.not_lt.mp h2⟩

theorem applyTo_fields (req : UpdateTaskRequest) (now : Nat) (t : Task) :
    (UpdateTaskRequest.ApplyTo req now t).ID = t.ID ∧
    (UpdateTaskRequest.ApplyTo req now t).CreatedAt = t.CreatedAt ∧
    ((UpdateTaskRequest.ApplyTo req now t).UpdatedAt = now ∨
      (UpdateTaskRequest.ApplyTo req now t).UpdatedAt = t.UpdatedAt) ∧
    ((UpdateTaskRequest.ApplyTo req now t).Name = t.Name ∨
      req.Name = some (UpdateTaskRequest.ApplyTo req now t).Name) ∧
    ((UpdateTaskRequest.ApplyTo req now t).Status = t.Status ∨
      req.Status = some (UpdateTaskRequest.ApplyTo req now t).Status) := by
  cases hn : req.Name <;> cases hs : req.Status <;>
    simp [UpdateTaskRequest.ApplyTo, hn, hs]

theorem taskWF_applyTo {req : UpdateTaskRequest} {now : Nat} {t : Task}
    (hv : UpdateTaskRequest.Validate req = none) (ht : TaskWF t)
    (hc : t.CreatedAt ≤ now) : TaskWF (UpdateTaskRequest.ApplyTo req now t) := by
  obtain ⟨hname, hstat⟩ := update_validate_inv hv
  obtain ⟨hid, hcr, hup, hnm, hst⟩ := applyTo_fields req now t
  obtain ⟨ht1, ht2, ht3, ht4⟩ := ht
  refine ⟨?_, ?_, ?_, ?_⟩
  · rcases hnm with h' | h'
    · rw [h']; exact ht1
    · exact (hname _ h').1
  · rcases hnm with h' | h'
    · rw [h']; exact ht2
    · exact (hname _ h').2
  · rcases hst with h' | h'
    · rw [h']; exact ht3
    · exact hstat _ h'
  · rcases hup with h' | h'
    · rw [h', hcr]; exact hc
    · rw [h', hcr]; exact ht4

theorem clockLE_mono {ms : MemoryStorage} {n m : Nat} (h : ClockLE ms n) (hle : n ≤ m) :
    ClockLE ms m := by
  intro t ht
  obtain ⟨h1, h2⟩ := h t ht
  exact ⟨le_trans h1 hle, le_trans h2 hle⟩

theorem inv_run : ∀ (ops : List Op) (ms : MemoryStorage) (n : Nat),
    StoreInv ms → ClockLE ms n → chronoB n ops = true → StoreInv (runOps ms ops) := by
  intro ops
  induction ops with
  | nil =>
    intro ms n hI _ _
    exact hI
  | cons op rest ih =>
    intro ms n hI hC hch
    have hrun : runOps ms (op :: rest) = runOps (applyOp ms op) rest := rfl
    rw [hrun]
    cases op with
    | create req now taskID =>
      have hch' : (decide (n ≤ now) && chronoB now rest) = true := by
        simpa [chronoB, opTime] using hch
      rw [Bool.and_eq_true] at hch'
      have hle : n ≤ now := of_decide_eq_true hch'.1
      cases h1 : (Create ms req now taskID).1 with
      | error e =>
        have hstate : applyOp ms (Op.create req now taskID) = ms := Create_error_state h1
        rw [hstate]
        exact ih ms now hI (clockLE_mono hC hle) hch'.2
      | ok t =>
        obtain ⟨hv, hcap, htt⟩ := Create_ok_inv h1
        obtain ⟨hn1, hn2, hn3⟩ := create_validate_inv hv
        apply ih _ now ?_ ?_ hch'.2
        · intro u hu
          rcases create_ok_mem h1 u hu with h' | h'
          · subst h'
            rw [htt]
            exact ⟨hn1, hn2, hn3, le_refl _⟩
          · exact hI u h'
        · intro u hu
          rcases create_ok_mem h1 u hu with h' | h'
          · subst h'
            rw [htt]
            exact ⟨le_refl _, le_refl _⟩
          · obtain ⟨hu1, hu2⟩ := hC u h'
            exact ⟨le_trans hu1 hle, le_trans hu2 hle⟩
    | update id req now =>
      have hch' : (decide (n ≤ now) && chronoB now rest) = true := by
        simpa [chronoB, opTime] using hch
      rw [Bool.and_eq_true] at hch'
      have hle : n ≤ now := of_decide_eq_true hch'.1
      cases h1 : (Update ms id req now).1 with
      | error e =>
        have hstate : applyOp ms (Op.update id req now) = ms := Update_error_state h1
        rw [hstate]
        exact ih ms now hI (clockLE_mono hC hle) hch'.2
      | ok t' =>
        obtain ⟨task, hv, hu', hf, ht'⟩ := Update_ok_inv h1
        obtain ⟨hmem0, hmem⟩ := update_ok_mem h1
        obtain ⟨t0, ht0mem, ht0eq⟩ := hmem0
        have ht0wf : TaskWF t0 := hI t0 ht0mem
        have ht0clock := hC t0 ht0mem
        apply ih _ now ?_ ?_ hch'.2
        · intro u hu
          rcases hmem u hu with h' | h'
          · subst h'
            rw [ht0eq]
            exact taskWF_applyTo hv ht0wf (le_trans ht0clock.1 hle)
          · exact hI u h'
        · intro u hu
          rcases hmem u hu with h' | h'
          · subst h'
            rw [ht0eq]
            obtain ⟨hid, hcr, hup, _, _⟩ := applyTo_fields req now t0
            refine ⟨by rw [hcr]; exact le_trans ht0clock.1 hle, ?_⟩
            rcases hup with h'' | h''
            · rw [h'']
            · rw [h'']
              exact le_trans ht0clock.2 hle
          · obtain ⟨hu1, hu2⟩ := hC u h'
            exact ⟨le_trans hu1 hle, le_trans hu2 hle⟩
    | delete id =>
      have hch' : chronoB n rest = true := by simpa [chronoB, opTime] using hch
      apply ih _ n ?_ ?_ hch'
      · intro u hu
        exact hI u (delete_mem u hu)
      · intro u hu
        exact hC u (delete_mem u hu)
    | clear =>
      have hch' : chronoB n rest = true := by simpa [chronoB, opTime] using hch
      apply ih _ n ?_ ?_ hch'
      · intro u hu
        rw [show applyOp ms Op.clear = Clear ms from rfl, getAll_clear] at hu
        cases hu
      · intro u hu
        rw [show applyOp ms Op.clear = Clear ms from rfl, getAll_clear] at hu
        cases hu

/-- C6: in every store state reachable from a fresh store by a sequence of
operations whose clock readings are monotone (Go's `time.Now()`), every
stored record has a non-empty name of at most 255 characters (the Go byte
bound implies the character bound), a status among the two valid values, and
`updated_at >= created_at`; the proof of `inv_run` shows each operation
preserves this invariant. -/
theorem stored_record_invariant (maxTasks : Int) (ops : List Op) (n : Nat)
    (hch : chronoB n ops = true) :
    ∀ t ∈ GetAll (runOps (NewMemoryStorage maxTasks) ops),
      t.Name ≠ "" ∧ t.Name.length ≤ 255 ∧
      (t.Status = TaskStatus.TaskIncomplete ∨ t.Status = TaskStatus.TaskCompleted) ∧
      t.CreatedAt ≤ t.UpdatedAt := by
  have hInv : StoreInv (runOps (NewMemoryStorage maxTasks) ops) := by
    apply inv_run ops (NewMemoryStorage maxTasks) n ?_ ?_ hch
    · intro t ht
      rw [getAll_new] at ht
      cases ht
    · intro t ht
      rw [getAll_new] at ht
      cases ht
  intro t ht
  obtain ⟨h1, h2, h3, h4⟩ := hInv t ht
  refine ⟨h1, le_trans (length_le_utf8ByteSize _) h2, ?_, h4⟩
  simpa [TaskStatus.IsValid] using h3

theorem stored_record_invariant_witness :
    chronoB 0 [Op.create ⟨"a", 0⟩ 1 "x1", Op.create ⟨"b", 1⟩ 2 "x2",
      Op.update "x1" ⟨none, some 1⟩ 3, Op.delete "x2", Op.create ⟨"c", 0⟩ 4 "x3"] = true ∧
    ∀ t ∈ GetAll (runOps (NewMemoryStorage 5)
      [Op.create ⟨"a", 0⟩ 1 "x1", Op.create ⟨"b", 1⟩ 2 "x2",
        Op.update "x1" ⟨none, some 1⟩ 3, Op.delete "x2", Op.create ⟨"c", 0⟩ 4 "x3"]),
      t.Name ≠ "" ∧ t.Name.length ≤ 255 ∧
      (t.Status = TaskStatus.TaskIncomplete ∨ t.Status = TaskStatus.TaskCompleted) ∧
      t.CreatedAt ≤ t.UpdatedAt :=
  ⟨by decide,
   stored_record_invariant 5
     [Op.create ⟨"a", 0⟩ 1 "x1", Op.create ⟨"b", 1⟩ 2 "x2",
       Op.update "x1" ⟨none, some 1⟩ 3, Op.delete "x2", Op.create ⟨"c", 0⟩ 4 "x3"] 0
     (by decide)⟩

/-! ### Claim C8 -/

/-- C8: `NewMemoryStorage maxTasks` maps `maxTasks ≤ 0` to the default ceiling
10000; the shard count is 8 when the resulting ceiling is below 1000, 64 when
it is above 100000, and the default 32 otherwise; every shard starts as an
empty map, so `HealthCheck` on a freshly constructed store reports healthy
(`none`, a nil error). -/
theorem construction_spec (maxTasks : Int) :
    (NewMemoryStorage maxTasks).maxTasks = (if maxTasks ≤ 0 then 10000 else maxTasks) ∧
    (NewMemoryStorage maxTasks).shardCount =
      (if (NewMemoryStorage maxTasks).maxTasks < 1000 then 8
       else if 100000 < (NewMemoryStorage maxTasks).maxTasks then 64 else 32) ∧
    (NewMemoryStorage maxTasks).shards =
      List.replicate (NewMemoryStorage maxTasks).shardCount ([] : Shard) ∧
    HealthCheck (NewMemoryStorage maxTasks) = none := by
  refine ⟨rfl, rfl, rfl, ?_⟩
  simp only [NewMemoryStorage, HealthCheck, List.length_replicate]
  split_ifs <;> simp_all

/-! ### Claim C9 -/

/-- C9: whenever `Create`, `Update` or `Delete` returns an error, the store
state it hands back is exactly the input state, so every shard's record set
and `Count()` are unchanged. -/
theorem error_atomicity :
    (∀ ms req now taskID e, (Create ms req now taskID).1 = Except.error e →
      (Create ms req now taskID).2 = ms ∧ Count (Create ms req now taskID).2 = Count ms ∧
      GetAll (Create ms req now taskID).2 = GetAll ms) ∧
    (∀ ms id req now e, (Update ms id req now).1 = Except.error e →
      (Update ms id req now).2 = ms ∧ Count (Update ms id req now).2 = Count ms ∧
      GetAll (Update ms id req now).2 = GetAll ms) ∧
    (∀ ms id e, (Delete ms id).1 = some e →
      (Delete ms id).2 = ms ∧ Count (Delete ms id).2 = Count ms ∧
      GetAll (Delete ms id).2 = GetAll ms) := by
  refine ⟨?_, ?_, ?_⟩
  · intro ms req now taskID e h
    have hs := Create_error_state h
    exact ⟨hs, by rw [hs], by rw [hs]⟩
  · intro ms id req now e h
    have hs := Update_error_state h
    exact ⟨hs, by rw [hs], by rw [hs]⟩
  · intro ms id e h
    have hs := Delete_error_state h
    exact ⟨hs, by rw [hs], by rw [hs]⟩

theorem error_atomicity_witness :
    ((Create (NewMemoryStorage 1) ⟨"", 0⟩ 3 "u1").1 =
        Except.error (StorageError.validationError "task name cannot be empty") ∧
      (Create (NewMemoryStorage 1) ⟨"", 0⟩ 3 "u1").2 = NewMemoryStorage 1) ∧
    ((Update (NewMemoryStorage 1) "u1" ⟨none, none⟩ 3).1 =
        Except.error StorageError.noOpUpdate ∧
      (Update (NewMemoryStorage 1) "u1" ⟨none, none⟩ 3).2 = NewMemoryStorage 1) ∧
    ((Delete (NewMemoryStorage 1) "u1").1 = some (StorageError.notFound "u1") ∧
      (Delete (NewMemoryStorage 1) "u1").2 = NewMemoryStorage 1) :=
  ⟨⟨by decide,
    (error_atomicity.1 (NewMemoryStorage 1) ⟨"", 0⟩ 3 "u1"
      (StorageError.validationError "task name cannot be empty") (by decide)).1⟩,
   ⟨by decide,
    (error_atomicity.2.1 (NewMemoryStorage 1) "u1" ⟨none, none⟩ 3
      StorageError.noOpUpdate (by decide)).1⟩,
   ⟨by decide,
    (error_atomicity.2.2 (NewMemoryStorage 1) "u1"
      (StorageError.notFound "u1") (by decide)).1⟩⟩

/-! ### Claim C10 -/

/-- C10: `Create` validates before the capacity check, so an invalid request
against any store (full ones included) yields `ValidationError`; `Update`
checks validation, then whether any field is supplied, then existence:
an invalid supplied field yields `ValidationError`, an empty update yields
`NoOpUpdate` on any store and id, and `NotFound` arises exactly for a valid,
non-empty update whose id is absent. -/
theorem error_precedence :
    (∀ ms req now taskID msg, CreateTaskRequest.Validate req = some msg →
      (Create ms req now taskID).1 = Except.error (StorageError.validationError msg)) ∧
    (∀ ms id req now msg, UpdateTaskRequest.Validate req = some msg →
      (Update ms id req now).1 = Except.error (StorageError.validationError msg)) ∧
    (∀ ms id now,
      (Update ms id { Name := none, Status := none } now).1 =
        Except.error StorageError.noOpUpdate) ∧
    (∀ ms id req now, (Update ms id req now).1 = Except.error (StorageError.notFound id) →
      UpdateTaskRequest.Validate req = none ∧ UpdateTaskRequest.HasUpdates req = true ∧
      GetByID ms id = Except.error (StorageError.notFound id)) := by
  refine ⟨?_, ?_, ?_, ?_⟩
  · intro ms req now taskID msg h
    rw [Create_validation h]
  · intro ms id req now msg h
    rw [Update_validation h]
  · intro ms id now
    rw [@Update_noOp ms id ⟨none, none⟩ now rfl rfl]
  · intro ms id req now h
    cases hv : UpdateTaskRequest.Validate req with
    | some msg => rw [Update_validation hv] at h; simp at h
    | none =>
      cases hu : UpdateTaskRequest.HasUpdates req with
      | false => rw [Update_noOp hv hu] at h; simp at h
      | true =>
        cases hf : shardFind (getShard ms id) id with
        | none => exact ⟨rfl, rfl, GetByID_notFound_iff.mpr hf⟩
        | some task => rw [Update_eq_ok hv hu hf] at h; simp at h

theorem error_precedence_witness :
    (CreateTaskRequest.Validate { Name := "", Status := 0 } =
        some "task name cannot be empty" ∧
      Count (Create (NewMemoryStorage 1) ⟨"a", 0⟩ 1 "u1").2 = 1 ∧
      (Create (Create (NewMemoryStorage 1) ⟨"a", 0⟩ 1 "u1").2 ⟨"", 0⟩ 2 "u2").1 =
        Except.error (StorageError.validationError "task name cannot be empty")) ∧
    (UpdateTaskRequest.Validate { Name := some "", Status := none } =
        some "task name cannot be empty" ∧
      (Update (NewMemoryStorage 1) "zzz" ⟨some "", none⟩ 2).1 =
        Except.error (StorageError.validationError "task name cannot be empty")) ∧
    (Update (NewMemoryStorage 1) "zzz" { Name := none, Status := none } 2).1 =
      Except.error StorageError.noOpUpdate ∧
    ((Update (NewMemoryStorage 1) "nope" ⟨none, some 1⟩ 2).1 =
        Except.error (StorageError.notFound "nope") ∧
      GetByID (NewMemoryStorage 1) "nope" = Except.error (StorageError.notFound "nope")) :=
  ⟨⟨by decide, by decide,
    error_precedence.1 (Create (NewMemoryStorage 1) ⟨"a", 0⟩ 1 "u1").2 ⟨"", 0⟩ 2 "u2"
      "task name cannot be empty" (by decide)⟩,
   ⟨by decide,
    error_precedence.2.1 (NewMemoryStorage 1) "zzz" ⟨some "", none⟩ 2
      "task name cannot be empty" (by decide)⟩,
   error_precedence.2.2.1 (NewMemoryStorage 1) "zzz" 2,
   ⟨by decide,
    (error_precedence.2.2.2 (NewMemoryStorage 1) "nope" ⟨none, some 1⟩ 2 (by decide)).2.2⟩⟩

end TaskApi
